import Mathlib

/-!
Shallow embedding of the contact-book core of the assistant-bot program
(`Task_01_hw_07.py`, `Task_02_hw_07.py`): the field validators, the contact
record with its phone and birthday operations, the address book, and the
upcoming-birthday scan.  Strings are modelled over ASCII characters.
-/

/-- Python `Phone.validate_phone`: `bool(re.match(r"^\d{10}$", value))`.
`re.match` anchors at the start of the string, and `$` matches either at the
very end of the string or just before a single newline that ends the string,
so a ten-digit string followed by one trailing newline also matches.
Python's `\d` additionally matches non-ASCII Unicode decimal digits; the
embedding models inputs over ASCII, where `\d` coincides with `'0'`–`'9'`. -/
def validate_phone (l : List Char) : Bool :=
  ((l.take 10).length == 10 && (l.take 10).all (fun c => c.isDigit)) &&
    (l.drop 10 == [] || l.drop 10 == ['\n'])

/-- Gregorian leap-year rule used by Python's `datetime` module. -/
def isLeap (y : Nat) : Bool :=
  (y % 4 == 0 && y % 100 != 0) || y % 400 == 0

/-- Number of days of month `m` in year `y` (Python `datetime` calendar). -/
def daysInMonth (y m : Nat) : Nat :=
  if m == 2 then (if isLeap y then 29 else 28)
  else if m == 4 || m == 6 || m == 9 || m == 11 then 30
  else 31

/-- A calendar date as carried by a Python `datetime` value (the time-of-day
component is modelled separately, see `DateTime`). -/
structure Date where
  year : Nat
  month : Nat
  day : Nat
deriving DecidableEq

/-- Range checks performed by the `datetime` constructor (`MINYEAR = 1`,
`MAXYEAR = 9999`, month 1–12, day within the month's length). -/
def validDate (dt : Date) : Bool :=
  decide (1 ≤ dt.year ∧ dt.year ≤ 9999 ∧ 1 ≤ dt.month ∧ dt.month ≤ 12 ∧
    1 ≤ dt.day ∧ dt.day ≤ daysInMonth dt.year dt.month)

/-- Strict chronological order on dates; for valid dates the lexicographic
(year, month, day) comparison coincides with Python `datetime` date order. -/
def dateLt (a b : Date) : Bool :=
  decide (a.year < b.year ∨ (a.year = b.year ∧ (a.month < b.month ∨
    (a.month = b.month ∧ a.day < b.day))))

/-- Non-strict chronological order on dates. -/
def dateLe (a b : Date) : Bool :=
  a == b || dateLt a b

/-- The day after `dt` on the calendar. -/
def nextDay (dt : Date) : Date :=
  if dt.day < daysInMonth dt.year dt.month then ⟨dt.year, dt.month, dt.day + 1⟩
  else if dt.month < 12 then ⟨dt.year, dt.month + 1, 1⟩
  else ⟨dt.year + 1, 1, 1⟩

/-- Python `timedelta(days = n)` addition on the date part. -/
def addDays : Nat → Date → Date
  | 0, dt => dt
  | n + 1, dt => addDays n (nextDay dt)

/-- A Python `datetime`: a date plus a time-of-day (`tod`, here the
microseconds elapsed since midnight; only its order matters). -/
structure DateTime where
  date : Date
  tod : Nat
deriving DecidableEq

/-- Strict order on datetimes: date order, then time-of-day. -/
def dtLt (a b : DateTime) : Bool :=
  dateLt a.date b.date || (a.date == b.date && decide (a.tod < b.tod))

/-- Non-strict order on datetimes. -/
def dtLe (a b : DateTime) : Bool :=
  a == b || dtLt a b

/-- `today + timedelta(days = n)` on a datetime: the time-of-day is kept. -/
def addDaysDT (n : Nat) (a : DateTime) : DateTime :=
  ⟨addDays n a.date, a.tod⟩

/-- `birthday.value.replace(year := y)` on the midnight datetime holding a
stored birthday: keeps month, day and the zero time-of-day, validates the
resulting date, and raises `ValueError` (here: `none`) when it is invalid —
which happens exactly for a Feb 29 birthday and a non-leap target year. -/
def replaceYear (y : Nat) (b : Date) : Option DateTime :=
  if validDate ⟨y, b.month, b.day⟩ then some ⟨⟨y, b.month, b.day⟩, 0⟩ else none

/-- Numeric value of a digit string (most significant digit first). -/
def digitsVal (l : List Char) : Nat :=
  l.foldl (fun a c => a * 10 + (c.toNat - 48)) 0

/-- Language of the CPython `_strptime` regex fragment for `%d`,
`3[01]|[12]\d|0[1-9]|[1-9]`: one or two decimal digits with value 1..31. -/
def dayField (l : List Char) : Bool :=
  (l.length == 1 || l.length == 2) && l.all (fun c => c.isDigit) &&
    decide (1 ≤ digitsVal l ∧ digitsVal l ≤ 31)

/-- Language of the CPython `_strptime` regex fragment for `%m`,
`1[0-2]|0[1-9]|[1-9]`: one or two decimal digits with value 1..12. -/
def monthField (l : List Char) : Bool :=
  (l.length == 1 || l.length == 2) && l.all (fun c => c.isDigit) &&
    decide (1 ≤ digitsVal l ∧ digitsVal l ≤ 12)

/-- Language of the CPython `_strptime` regex fragment for `%Y`,
`\d\d\d\d`: exactly four decimal digits. -/
def yearField (l : List Char) : Bool :=
  l.length == 4 && l.all (fun c => c.isDigit)

/-- Python `datetime.strptime(value, "%d.%m.%Y")` from `Birthday.__init__`:
the whole string must be day field, literal dot, month field, literal dot,
four-digit year, and the three numbers must form a real calendar date
(otherwise the `datetime` constructor raises and so does `strptime`).  Since
every field is digit-only, the regex match splits the string at its dots:
the head each `dropWhile` stops at is necessarily the literal `'.'`. -/
def strptime_dmY (s : List Char) : Option Date :=
  match s.dropWhile (fun c => c != '.') with
  | [] => none
  | _ :: rest =>
    match rest.dropWhile (fun c => c != '.') with
    | [] => none
    | _ :: f3 =>
      if dayField (s.takeWhile (fun c => c != '.')) &&
          monthField (rest.takeWhile (fun c => c != '.')) &&
          yearField f3 &&
          validDate ⟨digitsVal f3, digitsVal (rest.takeWhile (fun c => c != '.')),
            digitsVal (s.takeWhile (fun c => c != '.'))⟩ then
        some ⟨digitsVal f3, digitsVal (rest.takeWhile (fun c => c != '.')),
          digitsVal (s.takeWhile (fun c => c != '.'))⟩
      else none

/-- One contact record: `Record.__init__` stores a (non-empty) name, an empty
phone list, and no birthday.  `Name` additionally rejects empty text; the
claims below never depend on the name's content. -/
structure Record where
  name : String
  phones : List String
  birthday : Option Date
deriving DecidableEq

/-- `Record(name)`: phones empty, birthday unset. -/
def mkRecord (name : String) : Record :=
  ⟨name, [], none⟩

/-- `Record.find_phone`: first phone whose value equals the argument. -/
def find_phone (ps : List String) (x : String) : Option String :=
  ps.find? (fun p => p == x)

/-- `Record.add_phone`, check for check in source order.  Note the final
guard `if not self.phones`: the number is appended only when the phone list
is currently empty; on a non-empty list a fully validated call returns
without changing anything. -/
def add_phone (ps : List String) (x : String) : Except String (List String) :=
  if (find_phone ps x).isSome then .error "Phone number already exists."
  else if !validate_phone x.data then .error "Phone number must be 10 digits!"
  else if x == "" then .error "Phone number is required!"
  else if decide (3 ≤ ps.length) then .error "Cannot add more than 3 phone numbers."
  else if x.length != 10 then .error "Phone number must be 10 digits!"
  else if ps == [] then .ok (ps ++ [x])
  else .ok ps

/-- `Record.remove_phone`: drops the found phone (a no-op with a "not found"
message when it is absent) and reports what happened. -/
def remove_phone (ps : List String) (x : String) : List String × String :=
  match find_phone ps x with
  | some p => (ps.erase p, "Phone " ++ x ++ " removed.")
  | none => (ps, "Phone number not found.")

/-- `Record.add_birthday`: refuses when a birthday is already stored,
otherwise parses the text (parse failures raise) and stores the date. -/
def add_birthday (st : Record) (s : String) : Except String Record :=
  if st.birthday.isSome then .error "Birthday already exists."
  else
    match strptime_dmY s.data with
    | some d => .ok { st with birthday := some d }
    | none => .error "Invalid date format. Use DD.MM.YYYY"

/-- The public mutating operations of `Record`. -/
inductive RecOp where
  | addPhone (x : String)
  | removePhone (x : String)
  | editPhone (old new : String)
  | addBirthday (s : String)
deriving DecidableEq

/-- One public record call.  A raising call leaves behind the state it had
reached: `edit_phone` is remove-then-add, so its removal persists even when
the add step raises. -/
def runOp (st : Record) (op : RecOp) : Record :=
  match op with
  | .addPhone x =>
    match add_phone st.phones x with
    | .ok ps => { st with phones := ps }
    | .error _ => st
  | .removePhone x => { st with phones := (remove_phone st.phones x).1 }
  | .editPhone old new =>
    let ps1 := (remove_phone st.phones old).1
    match add_phone ps1 new with
    | .ok ps => { st with phones := ps }
    | .error _ => { st with phones := ps1 }
  | .addBirthday s =>
    match add_birthday st s with
    | .ok st2 => st2
    | .error _ => st

/-- A sequence of public record calls. -/
def runOps (st : Record) (ops : List RecOp) : Record :=
  ops.foldl runOp st

/-- A Python `dict` with string keys, in insertion order: assignment to an
existing key keeps its position, a new key is appended. -/
def dictSet (m : List (String × Record)) (k : String) (v : Record) :
    List (String × Record) :=
  if m.any (fun p => p.1 == k) then m.map (fun p => if p.1 == k then (k, v) else p)
  else m ++ [(k, v)]

/-- `dict.get`: the record stored under `k`, if any. -/
def dictGet (m : List (String × Record)) (k : String) : Option Record :=
  (m.find? (fun p => p.1 == k)).map (fun p => p.2)

/-- `del self.data[name]`: the entry under `k` is removed. -/
def dictDel (m : List (String × Record)) (k : String) : List (String × Record) :=
  m.filter (fun p => p.1 != k)

/-- `AddressBook.add_record`: insert or overwrite under `record.name.value`. -/
def add_record (m : List (String × Record)) (r : Record) : List (String × Record) :=
  dictSet m r.name r

/-- `AddressBook.find`: `self.data.get(name)`. -/
def find (m : List (String × Record)) (name : String) : Option Record :=
  dictGet m name

/-- `AddressBook.delete(name, phone=None)`: reports "not found" without
changing anything when the name is absent; with a truthy `phone` argument it
delegates to the found record's `remove_phone` (mutating the stored record in
place); otherwise it removes the whole entry.  Python's `if phone:` treats
`None` and the empty string alike, so an empty phone string also deletes the
whole record. -/
def delete (m : List (String × Record)) (name : String) (phone : Option String) :
    List (String × Record) × String :=
  match find m name with
  | none => (m, "Contact not found.")
  | some r =>
    match phone with
    | some p =>
      if p == "" then (dictDel m name, "Contact " ++ name ++ " deleted.")
      else (dictSet m name { r with phones := (remove_phone r.phones p).1 },
        "Phone " ++ p ++ " removed from " ++ name ++ ".")
    | none => (dictDel m name, "Contact " ++ name ++ " deleted.")

/-- The public mutating operations of `AddressBook` (`find` reads only). -/
inductive BookOp where
  | addRec (r : Record)
  | delRec (name : String) (phone : Option String)
deriving DecidableEq

/-- One public address-book call. -/
def runBookOp (m : List (String × Record)) (op : BookOp) : List (String × Record) :=
  match op with
  | .addRec r => add_record m r
  | .delRec name phone => (delete m name phone).1

/-- A sequence of public address-book calls, from a given book. -/
def runBookOps (m : List (String × Record)) (ops : List BookOp) :
    List (String × Record) :=
  ops.foldl runBookOp m

/-- `AddressBook.get_upcoming_birthdays`, with `datetime.now()` passed in as
`today`.  For each record holding a birthday the stored midnight datetime is
re-anchored to `today`'s year (`replace(year=...)`, which raises on Feb 29 in
a non-leap year — modelled as `none` for the whole call, as the exception
aborts the loop), rolled one year forward when strictly before `today`, and
the record's name is collected when the result lies within
`[today, today + 7 days]`.  `Task_02_hw_07.birthdays` runs the same loop and
only formats its output differently. -/
def get_upcoming_birthdays (recs : List Record) (today : DateTime) :
    Option (List String) :=
  match recs with
  | [] => some []
  | r :: rest =>
    match r.birthday with
    | none => get_upcoming_birthdays rest today
    | some b =>
      match replaceYear today.date.year b with
      | none => none
      | some nb0 =>
        match (if dtLt nb0 today then replaceYear (today.date.year + 1) b
               else some nb0) with
        | none => none
        | some nb =>
          match get_upcoming_birthdays rest today with
          | none => none
          | some tl =>
            some (if dtLe today nb && dtLe nb (addDaysDT 7 today) then
              r.name :: tl else tl)

/-- The scan's inclusion condition on one record, at datetime granularity
(used to state what `get_upcoming_birthdays` computes). -/
def includedToday (today : DateTime) (r : Record) : Bool :=
  match r.birthday with
  | none => false
  | some b =>
    if dtLt ⟨⟨today.date.year, b.month, b.day⟩, 0⟩ today then
      dtLe today ⟨⟨today.date.year + 1, b.month, b.day⟩, 0⟩ &&
        dtLe ⟨⟨today.date.year + 1, b.month, b.day⟩, 0⟩ (addDaysDT 7 today)
    else
      dtLe today ⟨⟨today.date.year, b.month, b.day⟩, 0⟩ &&
        dtLe ⟨⟨today.date.year, b.month, b.day⟩, 0⟩ (addDaysDT 7 today)

/-- Both year re-anchorings of a record's birthday stay valid dates (rules
out the Feb 29 `ValueError` for the scan). -/
def bdayOk (today : DateTime) (r : Record) : Bool :=
  match r.birthday with
  | none => true
  | some b =>
    validDate ⟨today.date.year, b.month, b.day⟩ &&
      validDate ⟨today.date.year + 1, b.month, b.day⟩

/-- Modelled from the spec: `upcoming_birthdays(reference_date, window_days=7)`
as claim C2 words it — the occurrence of a stored birthday at date
granularity: month/day with the year set to the reference year, rolled one
year forward when it precedes the reference date. -/
def claimOccurrence (refDate : Date) (b : Date) : Date :=
  let o : Date := ⟨refDate.year, b.month, b.day⟩
  if dateLt o refDate then ⟨refDate.year + 1, b.month, b.day⟩ else o

/-- Modelled from the spec: the upcoming-birthdays scan as claim C2 words
it — every record with a birthday whose occurrence lies in
`[reference_date, reference_date + 7 days]` contributes a
`(name, occurrence_date)` pair, in book order. -/
def claimUpcomingPairs (recs : List Record) (refDate : Date) :
    List (String × Date) :=
  recs.filterMap (fun r =>
    match r.birthday with
    | none => none
    | some b =>
      let o := claimOccurrence refDate b
      if dateLe refDate o && dateLe o (addDays 7 refDate) then some (r.name, o)
      else none)

/-- Modelled from the spec: claim C8's reading of the pattern `DD.MM.YYYY` —
two-digit day, two-digit month, four-digit year, all decimal digits,
denoting a real calendar date. -/
def matchesDDMMYYYY (s : List Char) : Bool :=
  match s with
  | [d1, d2, '.', m1, m2, '.', y1, y2, y3, y4] =>
    [d1, d2, m1, m2, y1, y2, y3, y4].all (fun c => c.isDigit) &&
      validDate ⟨digitsVal [y1, y2, y3, y4], digitsVal [m1, m2], digitsVal [d1, d2]⟩
  | _ => false

/-- A successful `add_phone` either leaves the list unchanged (the final
`if not self.phones` guard) or appends to the empty list. -/
theorem add_phone_ok_cases {ps : List String} {x : String} {ps' : List String}
    (h : add_phone ps x = .ok ps') : ps' = ps ∨ (ps = [] ∧ ps' = [x]) := by
  unfold add_phone at h
  split_ifs at h with h1 h2 h3 h4 h5 h6 <;> simp_all

/-- A successful `add_birthday` only touches the birthday field. -/
theorem add_birthday_ok_phones {st st' : Record} {s : String}
    (h : add_birthday st s = .ok st') : st'.phones = st.phones := by
  unfold add_birthday at h
  split_ifs at h with h1
  cases hp : strptime_dmY s.data with
  | none => simp_all
  | some d =>
    rw [hp] at h
    simp only [Except.ok.injEq] at h
    subst h
    rfl

/-- `remove_phone` never lengthens the phone list. -/
theorem remove_phone_length_le (ps : List String) (x : String) :
    (remove_phone ps x).1.length ≤ ps.length := by
  unfold remove_phone
  cases h : find_phone ps x with
  | none => simp
  | some p => simpa using (ps.erase_sublist p).length_le

/-- Every single public record call keeps the phone list at length at most
one (the `add_phone` guard appends only to the empty list). -/
theorem runOp_phones_length_le {st : Record} (op : RecOp)
    (h : st.phones.length ≤ 1) : (runOp st op).phones.length ≤ 1 := by
  cases op with
  | addPhone x =>
    simp only [runOp]
    cases heq : add_phone st.phones x with
    | error e => simpa using h
    | ok ps =>
      rcases add_phone_ok_cases heq with h' | ⟨h1, h2⟩
      · simpa [h'] using h
      · simp [h2]
  | removePhone x =>
    simpa [runOp] using le_trans (remove_phone_length_le st.phones x) h
  | editPhone old new =>
    simp only [runOp]
    have hl : (remove_phone st.phones old).1.length ≤ 1 :=
      le_trans (remove_phone_length_le st.phones old) h
    cases heq : add_phone (remove_phone st.phones old).1 new with
    | error e => simpa using hl
    | ok ps =>
      rcases add_phone_ok_cases heq with h' | ⟨h1, h2⟩
      · simpa [h'] using hl
      · simp [h2]
  | addBirthday s =>
    simp only [runOp]
    cases heq : add_birthday st s with
    | error e => simpa using h
    | ok st2 => simpa [add_birthday_ok_phones heq] using h

/-- Along any sequence of public record calls the phone list keeps length at
most one. -/
theorem runOps_phones_length_le : ∀ (ops : List RecOp) (st : Record),
    st.phones.length ≤ 1 → (runOps st ops).phones.length ≤ 1 := by
  intro ops
  induction ops with
  | nil => intro st h; simpa [runOps] using h
  | cons op rest ih =>
    intro st h
    simpa [runOps] using ih (runOp st op) (runOp_phones_length_le op h)

/-- A list of at most one element has no duplicates. -/
theorem nodup_of_length_le_one {l : List String} (h : l.length ≤ 1) :
    l.Nodup := by
  match l with
  | [] => exact List.nodup_nil
  | [a] => exact List.nodup_singleton a
  | a :: b :: t => simp at h

/-- C1: the claim states that a validated, non-duplicate number added to a
record holding fewer than 3 phones is appended.  On the source the call
`add_phone` passes every check on a one-phone record and still returns the
list unchanged, because of the final `if not self.phones:` guard (line 66);
the program's own `main` adds two phones to John this way and silently keeps
only the first, so the code contradicts its own intended use. -/
theorem c1_add_phone_silently_drops :
    add_phone ["1234567890"] "5555555555" = Except.ok ["1234567890"] ∧
      "5555555555" ∉ ["1234567890"] := by
  exact ⟨rfl, by decide⟩

/-- C3: the claim states `edit_phone("0000000000", "1111111111")` on a record
lacking the old number leaves `"1111111111"` present.  On a record that
already holds one other phone, the remove step is a no-op and the add step
passes all its checks but appends nothing (the `if not self.phones:` guard),
so the new number is absent afterwards. -/
theorem c3_edit_phone_drops_new :
    runOp ⟨"Kate", ["2222222222"], none⟩
        (RecOp.editPhone "0000000000" "1111111111") =
      ⟨"Kate", ["2222222222"], none⟩ ∧
      "1111111111" ∉ (runOp ⟨"Kate", ["2222222222"], none⟩
        (RecOp.editPhone "0000000000" "1111111111")).phones := by
  exact ⟨rfl, by decide⟩

/-- C5: along every sequence of public phone/birthday calls, successful or
failing, a record's phone list has no duplicates and at most 3 entries (on
the source it in fact never exceeds one entry). -/
theorem c5_phones_invariant (name : String) (ops : List RecOp) :
    (runOps (mkRecord name) ops).phones.Nodup ∧
      (runOps (mkRecord name) ops).phones.length ≤ 3 := by
  have h1 : (runOps (mkRecord name) ops).phones.length ≤ 1 :=
    runOps_phones_length_le ops (mkRecord name) (by simp [mkRecord])
  exact ⟨nodup_of_length_le_one h1, le_trans h1 (by omega)⟩

/-- Witness for C5 at a concrete run. -/
theorem c5_witness :
    (runOps (mkRecord "John")
        [RecOp.addPhone "1234567890", RecOp.addPhone "5555555555"]).phones.Nodup ∧
      (runOps (mkRecord "John")
        [RecOp.addPhone "1234567890", RecOp.addPhone "5555555555"]).phones.length ≤ 3 :=
  c5_phones_invariant "John" [RecOp.addPhone "1234567890", RecOp.addPhone "5555555555"]

/-- C10: a reachable record's phone list never holds more than one number,
and on a record whose list is non-empty the `addPhone` call returns the
record unchanged (whether its checks pass or raise). -/
theorem c10_at_most_one_phone :
    (∀ (name : String) (ops : List RecOp),
        (runOps (mkRecord name) ops).phones.length ≤ 1) ∧
      (∀ (st : Record) (x : String), st.phones ≠ [] →
        runOp st (RecOp.addPhone x) = st) := by
  constructor
  · intro name ops
    exact runOps_phones_length_le ops (mkRecord name) (by simp [mkRecord])
  · intro st x hne
    simp only [runOp]
    cases heq : add_phone st.phones x with
    | error e => rfl
    | ok ps =>
      rcases add_phone_ok_cases heq with h' | ⟨h1, h2⟩
      · subst h'; rfl
      · exact absurd h1 hne

/-- Witness for C10: a one-phone record and a second, fully valid number. -/
theorem c10_witness :
    (runOps (mkRecord "Jane") [RecOp.addPhone "9876543210"]).phones.length ≤ 1 ∧
      runOp (⟨"John", ["1234567890"], none⟩ : Record)
          (RecOp.addPhone "5555555555") =
        (⟨"John", ["1234567890"], none⟩ : Record) :=
  ⟨c10_at_most_one_phone.1 "Jane" [RecOp.addPhone "9876543210"],
    c10_at_most_one_phone.2 ⟨"John", ["1234567890"], none⟩ "5555555555" (by decide)⟩

/-- One public record call keeps an already-set birthday. -/
theorem runOp_birthday_some {st : Record} {b : Date} (op : RecOp)
    (h : st.birthday = some b) : (runOp st op).birthday = some b := by
  cases op with
  | addPhone x =>
    simp only [runOp]
    cases heq : add_phone st.phones x <;> simpa using h
  | removePhone x => simpa [runOp] using h
  | editPhone old new =>
    simp only [runOp]
    cases heq : add_phone (remove_phone st.phones old).1 new <;> simpa using h
  | addBirthday s =>
    simp [runOp, add_birthday, h]

/-- Any sequence of public record calls keeps an already-set birthday. -/
theorem runOps_birthday_some : ∀ (ops : List RecOp) (st : Record) (b : Date),
    st.birthday = some b → (runOps st ops).birthday = some b := by
  intro ops
  induction ops with
  | nil => intro st b h; simpa [runOps] using h
  | cons op rest ih =>
    intro st b h
    simpa [runOps] using ih (runOp st op) b (runOp_birthday_some op h)

/-- C6: `add_birthday` fails with "Birthday already exists." exactly when a
birthday is stored; on a record without one it stores the parsed date (and
propagates the parse error otherwise); and once set, no public record call
ever clears or replaces the birthday. -/
theorem c6_birthday_contract :
    (∀ (st : Record) (s : String), st.birthday.isSome = true →
        add_birthday st s = .error "Birthday already exists.") ∧
      (∀ (st : Record) (s : String), st.birthday = none →
        (∀ d, strptime_dmY s.data = some d →
            add_birthday st s = .ok { st with birthday := some d }) ∧
          (strptime_dmY s.data = none →
            add_birthday st s = .error "Invalid date format. Use DD.MM.YYYY")) ∧
      (∀ (st : Record) (ops : List RecOp) (b : Date), st.birthday = some b →
        (runOps st ops).birthday = some b) := by
  refine ⟨?_, ?_, ?_⟩
  · intro st s h
    simp [add_birthday, h]
  · intro st s h
    constructor
    · intro d hd
      simp [add_birthday, h, hd]
    · intro hn
      simp [add_birthday, h, hn]
  · intro st ops b h
    exact runOps_birthday_some ops st b h

/-- Witness for C6: a set birthday blocks a second set and survives a phone
call; an unset one accepts a valid leap date. -/
theorem c6_witness :
    add_birthday ⟨"Ann", [], some ⟨1990, 6, 10⟩⟩ "01.01.2000" =
        .error "Birthday already exists." ∧
      add_birthday ⟨"Bob", [], none⟩ "29.02.2000" =
        .ok ⟨"Bob", [], some ⟨2000, 2, 29⟩⟩ ∧
      (runOps ⟨"Ann", [], some ⟨1990, 6, 10⟩⟩
        [RecOp.addPhone "1234567890"]).birthday = some ⟨1990, 6, 10⟩ := by
  refine ⟨c6_birthday_contract.1 _ "01.01.2000" rfl, ?_,
    c6_birthday_contract.2.2 _ [RecOp.addPhone "1234567890"] ⟨1990, 6, 10⟩ rfl⟩
  exact (c6_birthday_contract.2.1 ⟨"Bob", [], none⟩ "29.02.2000" rfl).1
    ⟨2000, 2, 29⟩ (by rfl)

/-- C7: `delete(name)` on a book whose keys do not include `name` answers
"Contact not found." and returns the book unchanged. -/
theorem c7_delete_missing (m : List (String × Record)) (name : String)
    (h : find m name = none) : delete m name none = (m, "Contact not found.") := by
  simp [delete, h]

/-- Witness for C7 at a concrete one-entry book. -/
theorem c7_witness :
    delete [("Ann", ⟨"Ann", ["1234567890"], none⟩)] "Bob" none =
      ([("Ann", ⟨"Ann", ["1234567890"], none⟩)], "Contact not found.") :=
  c7_delete_missing [("Ann", ⟨"Ann", ["1234567890"], none⟩)] "Bob" (by rfl)

/-- An entry of `dictSet m k v` is either the written pair or an entry of `m`. -/
theorem mem_dictSet {m : List (String × Record)} {k : String} {v : Record}
    {e : String × Record} (he : e ∈ dictSet m k v) : e = (k, v) ∨ e ∈ m := by
  unfold dictSet at he
  split at he
  · obtain ⟨p, hp, hfp⟩ := List.mem_map.mp he
    by_cases hk : p.1 == k
    · left; simp [hk] at hfp; exact hfp.symm
    · right; simp [hk] at hfp; exact hfp ▸ hp
  · rcases List.mem_append.mp he with hm | hone
    · exact Or.inr hm
    · exact Or.inl (List.mem_singleton.mp hone)

/-- `find` returns the stored record of some entry whose key is the name. -/
theorem find_eq_some_mem {m : List (String × Record)} {name : String}
    {r : Record} (h : find m name = some r) : (name, r) ∈ m := by
  unfold find dictGet at h
  cases hf : m.find? (fun p => p.1 == name) with
  | none => rw [hf] at h; simp at h
  | some p =>
    rw [hf] at h
    simp only [Option.map_some', Option.some.injEq] at h
    have hp := List.find?_some hf
    have hmem := List.mem_of_find?_eq_some hf
    have hk : p.1 = name := by simpa using hp
    have : p = (name, r) := by
      cases p
      simp only [Prod.mk.injEq]
      exact ⟨hk, h⟩
    exact this ▸ hmem

/-- One public book call preserves the key/name agreement of every entry. -/
theorem runBookOp_name_inv {m : List (String × Record)}
    (h : ∀ e ∈ m, e.2.name = e.1) (op : BookOp) :
    ∀ e ∈ runBookOp m op, e.2.name = e.1 := by
  cases op with
  | addRec r =>
    intro e he
    rcases mem_dictSet he with rfl | hm
    · rfl
    · exact h e hm
  | delRec name phone =>
    intro e he
    simp only [runBookOp, delete] at he
    cases hf : find m name with
    | none => rw [hf] at he; exact h e he
    | some r =>
      have hr : r.name = name := h (name, r) (find_eq_some_mem hf)
      rw [hf] at he
      cases phone with
      | none => exact h e (List.mem_of_mem_filter he)
      | some p =>
        by_cases hp : p == ""
        · simp only [hp, if_pos] at he
          exact h e (List.mem_of_mem_filter he)
        · simp only [hp] at he
          rcases mem_dictSet he with rfl | hm
          · exact hr
          · exact h e hm

/-- Any sequence of public book calls preserves key/name agreement. -/
theorem runBookOps_name_inv : ∀ (ops : List BookOp) (m : List (String × Record)),
    (∀ e ∈ m, e.2.name = e.1) → ∀ e ∈ runBookOps m ops, e.2.name = e.1 := by
  intro ops
  induction ops with
  | nil => intro m h; simpa [runBookOps] using h
  | cons op rest ih =>
    intro m h
    have : runBookOps m (op :: rest) = runBookOps (runBookOp m op) rest := rfl
    rw [this]
    exact ih (runBookOp m op) (runBookOp_name_inv h op)

/-- In the rewritten part of the book, the first entry keyed `k` is `(k, v)`. -/
theorem find?_map_set (k : String) (v : Record) :
    ∀ (m : List (String × Record)), m.any (fun p => p.1 == k) = true →
      (m.map (fun p => if p.1 == k then (k, v) else p)).find?
        (fun p => p.1 == k) = some (k, v) := by
  intro m
  induction m with
  | nil => intro h; simp at h
  | cons p t ih =>
    intro h
    by_cases hp : (p.1 == k) = true
    · simp only [List.map_cons, if_pos hp]
      rw [List.find?_cons_of_pos _ (by simp)]
    · have ht : t.any (fun q => q.1 == k) = true := by
        simpa [List.any_cons, hp] using h
      simp only [List.map_cons, if_neg hp]
      rw [List.find?_cons_of_neg _ (by simpa using hp)]
      exact ih ht

/-- Appending a fresh entry: `find?` lands on it when no earlier key matches. -/
theorem find?_append_fresh (k : String) (v : Record) :
    ∀ (m : List (String × Record)), m.any (fun p => p.1 == k) = false →
      (m ++ [(k, v)]).find? (fun p => p.1 == k) = some (k, v) := by
  intro m
  induction m with
  | nil => simp [List.find?]
  | cons p t ih =>
    intro h
    rw [List.any_cons, Bool.or_eq_false_iff] at h
    rw [List.cons_append, List.find?_cons_of_neg _ (by simp [h.1])]
    exact ih h.2

/-- Writing under a key makes lookup of that key return the written record. -/
theorem dictGet_dictSet (m : List (String × Record)) (k : String) (v : Record) :
    dictGet (dictSet m k v) k = some v := by
  unfold dictGet dictSet
  cases hany : m.any (fun p => p.1 == k) with
  | true => rw [if_pos rfl, find?_map_set k v m hany]; rfl
  | false => rw [if_neg (by simp), find?_append_fresh k v m hany]; rfl

/-- C9: every book reachable by public calls from the empty book stores each
record under its own name, and `add_record` overwrites whole records: looking
up the added record's name afterwards yields exactly that record, whatever
was there before (last write wins, no merge). -/
theorem c9_book_invariant :
    (∀ (ops : List BookOp) (k : String) (r : Record),
        (k, r) ∈ runBookOps [] ops → r.name = k) ∧
      (∀ (m : List (String × Record)) (r : Record),
        dictGet (add_record m r) r.name = some r) := by
  constructor
  · intro ops k r hmem
    exact runBookOps_name_inv ops [] (by simp) (k, r) hmem
  · intro m r
    exact dictGet_dictSet m r.name r

/-- Witness for C9: one insertion, then an overwriting insertion. -/
theorem c9_witness :
    ((⟨"John", ["1234567890"], none⟩ : Record).name = "John") ∧
      dictGet (add_record [("John", ⟨"John", ["1234567890"], none⟩)]
          ⟨"John", ["5555555555"], none⟩) "John" =
        some ⟨"John", ["5555555555"], none⟩ :=
  ⟨c9_book_invariant.1 [BookOp.addRec ⟨"John", ["1234567890"], none⟩] "John"
      ⟨"John", ["1234567890"], none⟩ (by decide),
    c9_book_invariant.2 [("John", ⟨"John", ["1234567890"], none⟩)]
      ⟨"John", ["5555555555"], none⟩⟩

/-- C4 counterexample: the claim states every string of length ≠ 10 fails
validation, yet the eleven-character string `"1234567890\n"` (ten digits and
a trailing newline) passes, because the regex `$` matches just before a
newline that ends the string. -/
theorem c4_counterexample :
    validate_phone ['1', '2', '3', '4', '5', '6', '7', '8', '9', '0', '\n'] = true ∧
      (['1', '2', '3', '4', '5', '6', '7', '8', '9', '0', '\n'] : List Char).length ≠ 10 := by
  exact ⟨rfl, by decide⟩

/-- C4 as amended: over ASCII strings, validation succeeds exactly on ten
decimal digits optionally followed by one trailing newline.  (The ASCII
bound marks the domain on which the embedding's digit test coincides with
Python's Unicode-aware `\d`.) -/
theorem c4_validate_characterization (l : List Char)
    (hascii : ∀ c ∈ l, c.toNat < 128) :
    validate_phone l = true ↔
      ((l.length = 10 ∧ ∀ c ∈ l, c.isDigit = true) ∨
        (∃ ds : List Char, l = ds ++ ['\n'] ∧ ds.length = 10 ∧
          ∀ c ∈ ds, c.isDigit = true)) := by
  unfold validate_phone
  constructor
  · intro h
    simp only [Bool.and_eq_true, Bool.or_eq_true, beq_iff_eq, List.all_eq_true] at h
    obtain ⟨⟨hlen, hdig⟩, hdrop⟩ := h
    rcases hdrop with hd | hd
    · left
      have hl : l.take 10 = l := by
        conv_rhs => rw [← List.take_append_drop 10 l]
        rw [hd, List.append_nil]
      rw [hl] at hlen hdig
      exact ⟨hlen, hdig⟩
    · right
      refine ⟨l.take 10, ?_, hlen, hdig⟩
      conv_lhs => rw [← List.take_append_drop 10 l]
      rw [hd]
  · intro h
    rcases h with ⟨hlen, hdig⟩ | ⟨ds, rfl, hlen, hdig⟩
    · have ht : l.take 10 = l := List.take_of_length_le (by omega)
      have hd : l.drop 10 = [] := List.drop_eq_nil_of_le (by omega)
      simp only [ht, hd, hlen, List.all_eq_true, beq_self_eq_true, Bool.true_and,
        Bool.and_eq_true, Bool.or_eq_true, beq_iff_eq, true_or, and_true]
      exact hdig
    · have ht : (ds ++ ['\n']).take 10 = ds := by
        rw [← hlen]
        exact List.take_left ds ['\n']
      have hd : (ds ++ ['\n']).drop 10 = ['\n'] := by
        rw [← hlen]
        exact List.drop_left ds ['\n']
      simp only [ht, hd, hlen, List.all_eq_true, beq_self_eq_true, Bool.true_and,
        Bool.and_eq_true, Bool.or_eq_true, beq_iff_eq, or_true, and_true]
      exact hdig

/-- Witness for C4's characterization at a plain ten-digit number. -/
theorem c4_witness :
    validate_phone ['1', '2', '3', '4', '5', '6', '7', '8', '9', '0'] = true :=
  (c4_validate_characterization ['1', '2', '3', '4', '5', '6', '7', '8', '9', '0']
      (by decide)).mpr (Or.inl (by decide))

/-- A decimal digit differs from the dot character. -/
theorem digit_bne_dot {c : Char} (h : c.isDigit = true) : (c != '.') = true := by
  by_cases hc : c = '.'
  · subst hc; exact absurd h (by decide)
  · exact bne_iff_ne.mpr hc

/-- A digit-only field followed by a dot splits exactly at that dot. -/
theorem takeWhile_digits_dot (l r : List Char) (h : ∀ c ∈ l, c.isDigit = true) :
    (l ++ '.' :: r).takeWhile (fun c => c != '.') = l ∧
      (l ++ '.' :: r).dropWhile (fun c => c != '.') = '.' :: r := by
  induction l with
  | nil =>
    constructor <;> simp [List.takeWhile_cons, List.dropWhile_cons]
  | cons c t ih =>
    have hc : (c != '.') = true := digit_bne_dot (h c (List.mem_cons_self c t))
    have ht := ih (fun x hx => h x (List.mem_cons_of_mem c hx))
    constructor
    · simp [List.takeWhile_cons, hc, ht.1]
    · simp [List.dropWhile_cons, hc, ht.2]

/-- The head that `dropWhile` stops at fails the predicate. -/
theorem dropWhile_head_false {p : Char → Bool} :
    ∀ {s : List Char} {c : Char} {rest : List Char},
      s.dropWhile p = c :: rest → p c = false := by
  intro s
  induction s with
  | nil => intro c rest h; simp at h
  | cons a t ih =>
    intro c rest h
    rw [List.dropWhile_cons] at h
    by_cases ha : p a = true
    · rw [if_pos ha] at h; exact ih h
    · rw [if_neg ha] at h
      injection h with h1 h2
      subst h1
      simpa using ha

/-- C8 counterexample: the claim reads the accepted pattern as `DD.MM.YYYY`
(zero-padded two-digit day and month); `strptime` is laxer and also accepts
single-digit day and month, so `"1.5.1990"` parses although it does not
match the two-digit pattern. -/
theorem c8_counterexample :
    strptime_dmY "1.5.1990".data = some ⟨1990, 5, 1⟩ ∧
      matchesDDMMYYYY "1.5.1990".data = false := by
  exact ⟨rfl, rfl⟩

/-- C8 as amended: parsing succeeds exactly for day.month.year strings whose
day and month have one or two digits with values 1–31 and 1–12, whose year
has exactly four digits, and which denote a real calendar date; in
particular `"29.02.2001"` fails (2001 is not a leap year) and
`"29.02.2000"` succeeds. -/
theorem c8_parse_characterization :
    (∀ s : List Char, (strptime_dmY s).isSome = true ↔
        ∃ ds ms ys : List Char,
          s = ds ++ '.' :: (ms ++ '.' :: ys) ∧ dayField ds = true ∧
            monthField ms = true ∧ yearField ys = true ∧
            validDate ⟨digitsVal ys, digitsVal ms, digitsVal ds⟩ = true) ∧
      strptime_dmY "29.02.2001".data = none ∧
      (strptime_dmY "29.02.2000".data).isSome = true := by
  refine ⟨?_, rfl, rfl⟩
  intro s
  constructor
  · intro h
    unfold strptime_dmY at h
    split at h
    · simp at h
    next c rest hd1 =>
      split at h
      · simp at h
      next c2 f3 hd2 =>
        split at h
        case isTrue hcond =>
          simp only [Bool.and_eq_true] at hcond
          obtain ⟨⟨⟨hday, hmon⟩, hyear⟩, hvalid⟩ := hcond
          have hc : c = '.' := by
            have := dropWhile_head_false hd1
            simpa using this
          have hc2 : c2 = '.' := by
            have := dropWhile_head_false hd2
            simpa using this
          refine ⟨s.takeWhile (fun c => c != '.'),
            rest.takeWhile (fun c => c != '.'), f3, ?_, hday, hmon, hyear, hvalid⟩
          have hs := List.takeWhile_append_dropWhile (fun c => c != '.') s
          have hr := List.takeWhile_append_dropWhile (fun c => c != '.') rest
          rw [hd2, hc2] at hr
          rw [hd1, hc] at hs
          rw [hr]
          exact hs.symm
        case isFalse => simp at h
  · intro h
    obtain ⟨ds, ms, ys, rfl, hday, hmon, hyear, hvalid⟩ := h
    have hdd : ∀ c ∈ ds, c.isDigit = true := by
      unfold dayField at hday
      simp only [Bool.and_eq_true, List.all_eq_true] at hday
      exact hday.1.2
    have hmd : ∀ c ∈ ms, c.isDigit = true := by
      unfold monthField at hmon
      simp only [Bool.and_eq_true, List.all_eq_true] at hmon
      exact hmon.1.2
    have h1 := takeWhile_digits_dot ds (ms ++ '.' :: ys) hdd
    have h2 := takeWhile_digits_dot ms ys hmd
    unfold strptime_dmY
    rw [h1.2]
    simp only [h2.2, h1.1, h2.1]
    simp [hday, hmon, hyear, hvalid]

/-- C2 counterexample: with Ann's birthday `10.06.1990`, the claim's
date-granularity scan includes Ann for reference date `10.06.2030` and
returns a (name, occurrence) pair; the code compares at datetime granularity
against `datetime.now()`, so at noon of `10.06.2030` the midnight occurrence
is already "before now", rolls a year forward and Ann is excluded.  Even on
the spec's own example (reference `08.06.2030`) the code returns plain names,
not pairs. -/
theorem c2_counterexample :
    claimUpcomingPairs [⟨"Ann", [], some ⟨1990, 6, 10⟩⟩] ⟨2030, 6, 10⟩ =
        [("Ann", (⟨2030, 6, 10⟩ : Date))] ∧
      get_upcoming_birthdays [⟨"Ann", [], some ⟨1990, 6, 10⟩⟩]
          ⟨⟨2030, 6, 10⟩, 43200000000⟩ = some [] ∧
      get_upcoming_birthdays [⟨"Ann", [], some ⟨1990, 6, 10⟩⟩] ⟨⟨2030, 6, 8⟩, 0⟩ =
        some ["Ann"] := by
  exact ⟨rfl, rfl, rfl⟩

/-- C2 as amended: provided every stored birthday stays a valid date when
re-anchored to the reference year and to the year after (no Feb 29
`ValueError`), the scan returns exactly the names — not (name, date) pairs —
of the records satisfying the datetime-granularity inclusion condition, in
the book's insertion order: the midnight occurrence at the reference year,
rolled one year forward when strictly before the reference instant, must lie
in `[reference, reference + 7 days]`. -/
theorem c2_scan_amended (recs : List Record) (today : DateTime)
    (h : recs.all (bdayOk today) = true) :
    get_upcoming_birthdays recs today =
      some ((recs.filter (includedToday today)).map Record.name) := by
  induction recs with
  | nil => rfl
  | cons r rest ih =>
    rw [List.all_cons, Bool.and_eq_true] at h
    obtain ⟨hr, hrest⟩ := h
    have ihr := ih hrest
    cases hb : r.birthday with
    | none =>
      have hinc : includedToday today r = false := by
        unfold includedToday
        rw [hb]
      simp only [get_upcoming_birthdays, hb, ihr, List.filter_cons, hinc,
        Bool.false_eq_true, if_false]
    | some b =>
      unfold bdayOk at hr
      rw [hb, Bool.and_eq_true] at hr
      have h1 : replaceYear today.date.year b =
          some ⟨⟨today.date.year, b.month, b.day⟩, 0⟩ := by
        unfold replaceYear
        rw [if_pos hr.1]
      have h2 : replaceYear (today.date.year + 1) b =
          some ⟨⟨today.date.year + 1, b.month, b.day⟩, 0⟩ := by
        unfold replaceYear
        rw [if_pos hr.2]
      by_cases hlt : dtLt ⟨⟨today.date.year, b.month, b.day⟩, 0⟩ today = true
      · have hinc : includedToday today r =
            (dtLe today ⟨⟨today.date.year + 1, b.month, b.day⟩, 0⟩ &&
              dtLe ⟨⟨today.date.year + 1, b.month, b.day⟩, 0⟩ (addDaysDT 7 today)) := by
          unfold includedToday
          rw [hb]
          exact if_pos hlt
        simp only [get_upcoming_birthdays, hb, h1, hlt, if_true, h2, ihr,
          List.filter_cons, hinc, List.map_cons]
        by_cases hC : (dtLe today ⟨⟨today.date.year + 1, b.month, b.day⟩, 0⟩ &&
            dtLe ⟨⟨today.date.year + 1, b.month, b.day⟩, 0⟩ (addDaysDT 7 today)) = true
        · simp [hC]
        · simp [hC]
      · have hinc : includedToday today r =
            (dtLe today ⟨⟨today.date.year, b.month, b.day⟩, 0⟩ &&
              dtLe ⟨⟨today.date.year, b.month, b.day⟩, 0⟩ (addDaysDT 7 today)) := by
          unfold includedToday
          rw [hb]
          exact if_neg hlt
        simp only [get_upcoming_birthdays, hb, h1, hlt, if_false, ihr,
          List.filter_cons, hinc, List.map_cons]
        by_cases hC : (dtLe today ⟨⟨today.date.year, b.month, b.day⟩, 0⟩ &&
            dtLe ⟨⟨today.date.year, b.month, b.day⟩, 0⟩ (addDaysDT 7 today)) = true
        · simp [hC]
        · simp [hC]

/-- Witness for C2's amended scan: Ann's birthday two days ahead of a
midnight reference instant is reported, by name, through the theorem. -/
theorem c2_witness :
    get_upcoming_birthdays [⟨"Ann", [], some ⟨1990, 6, 10⟩⟩] ⟨⟨2030, 6, 9⟩, 0⟩ =
      some ["Ann"] := by
  rw [c2_scan_amended [⟨"Ann", [], some ⟨1990, 6, 10⟩⟩] ⟨⟨2030, 6, 9⟩, 0⟩ (by rfl)]
  rfl
